import Mathlib

/-!
Verification of the PluginHub Obsidian plugin (main.ts) against its
natural-language specification.

The TypeScript source is shallowly embedded: pure computations become Lean
functions on `String`/`List Char`/`Int`; JavaScript numbers appearing here are
small integers, so they are modelled by `Int`/`Nat`; JavaScript truthiness of
strings (`""` is falsy) and of `undefined`/`null` is modelled explicitly;
network- and filesystem-effects are abstracted as explicit oracle arguments
(`detect`, `fetchLatest`, `search`, `verify`, `write`) so that the
control-flow of the source functions can be stated and proved exactly.
-/

/-! ### JavaScript string primitives -/

/-- Characters treated as whitespace by JavaScript string trimming and by
`parseInt` leading-whitespace skipping (ASCII whitespace plus the common
Unicode space characters; sufficient for the version strings and tokens the
plugin manipulates). -/
def jsIsStrWhitespace (c : Char) : Bool :=
  c = ' ' || c = '\t' || c = '\n' || c = '\r' || c = '\x0b' || c = '\x0c' ||
  c = ' ' || c = '﻿'

/-- `String.prototype.toLowerCase`, restricted to ASCII case mapping
(`Char.toLower` lowers exactly the ASCII uppercase letters). -/
def jsToLower (s : String) : String :=
  ⟨s.data.map Char.toLower⟩

/-- `String.prototype.trim` on the character list: drop whitespace from both
ends. -/
def jsTrimList (l : List Char) : List Char :=
  ((((l.dropWhile jsIsStrWhitespace).reverse).dropWhile jsIsStrWhitespace)).reverse

/-- Does `pat` occur at the start of `l`? (Helper for substring search.) -/
def startsWithList : List Char → List Char → Bool
  | _, [] => true
  | [], _ :: _ => false
  | c :: cs, d :: ds => c = d && startsWithList cs ds

/-- Does `pat` occur anywhere in `l`? (Helper for substring search.) -/
def containsList (pat : List Char) : List Char → Bool
  | [] => pat.isEmpty
  | c :: cs => startsWithList (c :: cs) pat || containsList pat cs

/-- `String.prototype.includes`: substring containment. -/
def jsIncludes (s sub : String) : Bool :=
  containsList sub.data s.data

/-- `String.prototype.split` with a single-character separator, on character
lists.  Mirrors JavaScript: the result is always non-empty, and empty
segments are kept. -/
def splitOnChar (sep : Char) : List Char → List (List Char)
  | [] => [[]]
  | c :: rest =>
    match splitOnChar sep rest with
    | [] => [[c]]
    | h :: t => if c = sep then [] :: h :: t else (c :: h) :: t

/-- The maximal leading run of decimal digits, as a natural number; `none`
when there is no leading digit. -/
def parseDigits (l : List Char) : Option Nat :=
  let ds := l.takeWhile Char.isDigit
  if ds.isEmpty then none
  else some (ds.foldl (fun a c => a * 10 + (c.toNat - 48)) 0)

/-- `Number.parseInt(s, 10)`: skip leading whitespace, read an optional sign
and then the maximal run of decimal digits; `none` models `NaN`. -/
def jsParseInt (l : List Char) : Option Int :=
  let l1 := l.dropWhile jsIsStrWhitespace
  match l1 with
  | '-' :: rest => (parseDigits rest).map (fun n => -(n : Int))
  | '+' :: rest => (parseDigits rest).map (fun n => (n : Int))
  | _ => (parseDigits l1).map (fun n => (n : Int))

/-- `Number.parseInt(part, 10) || 0`: `NaN` (and `0` itself) collapse to `0`. -/
def jsParseIntOr0 (l : List Char) : Int :=
  match jsParseInt l with
  | none => 0
  | some v => v

/-! ### `compareVersions` (main.ts lines 325-339) -/

/-- The `normalize` closure of `compareVersions`:
`version.split('-')[0].split('.').map((part) => Number.parseInt(part, 10) || 0)`. -/
def normalizeVersion (v : String) : List Int :=
  ((splitOnChar '-' v.data).headD []) |> splitOnChar '.' |>.map jsParseIntOr0

/-- Comparison loop tail for the case where only the left list still has
components: each remaining left component is compared against `0`. -/
def cmpWithZeros : List Int → Int
  | [] => 0
  | a :: as => if a < 0 then -1 else if 0 < a then 1 else cmpWithZeros as

/-- Comparison loop tail for the case where only the right list still has
components: `0` is compared against each remaining right component. -/
def zerosCmp : List Int → Int
  | [] => 0
  | b :: bs => if 0 < b then -1 else if b < 0 then 1 else zerosCmp bs

/-- The index loop of `compareVersions`, rendered as structural recursion on
the two component lists; a missing component (`parts[i] ?? 0`) reads as `0`. -/
def cmpParts : List Int → List Int → Int
  | [], b => zerosCmp b
  | a :: as, [] => cmpWithZeros (a :: as)
  | a :: as, b :: bs => if a < b then -1 else if b < a then 1 else cmpParts as bs

/-- `compareVersions(current, latest)` from main.ts: strip a hyphen suffix,
split on `.`, parse components with `parseInt || 0`, compare component-wise
up to the longer length with missing components read as `0`. -/
def compareVersions (current latest : String) : Int :=
  cmpParts (normalizeVersion current) (normalizeVersion latest)

/-! #### Lemmas about `cmpParts` -/

theorem cmpWithZeros_range : ∀ l : List Int,
    cmpWithZeros l = -1 ∨ cmpWithZeros l = 0 ∨ cmpWithZeros l = 1 := by
  intro l
  induction l with
  | nil => simp [cmpWithZeros]
  | cons a as ih =>
    simp only [cmpWithZeros]
    split_ifs <;> simp [ih]

theorem zerosCmp_range : ∀ l : List Int,
    zerosCmp l = -1 ∨ zerosCmp l = 0 ∨ zerosCmp l = 1 := by
  intro l
  induction l with
  | nil => simp [zerosCmp]
  | cons a as ih =>
    simp only [zerosCmp]
    split_ifs <;> simp [ih]

theorem zerosCmp_eq_neg_cmpWithZeros : ∀ l : List Int, zerosCmp l = -cmpWithZeros l := by
  intro l
  induction l with
  | nil => simp [zerosCmp, cmpWithZeros]
  | cons a as ih =>
    simp only [zerosCmp, cmpWithZeros]
    split_ifs <;> first | omega | exact ih

theorem cmpParts_nil_right : ∀ l : List Int, cmpParts l [] = cmpWithZeros l := by
  intro l
  cases l with
  | nil => rfl
  | cons a as => rfl

theorem cmpParts_range : ∀ a b : List Int,
    cmpParts a b = -1 ∨ cmpParts a b = 0 ∨ cmpParts a b = 1 := by
  intro a
  induction a with
  | nil =>
    intro b
    exact zerosCmp_range b
  | cons x xs ih =>
    intro b
    cases b with
    | nil => exact cmpWithZeros_range (x :: xs)
    | cons y ys =>
      simp only [cmpParts]
      split
      · exact Or.inl rfl
      · split
        · exact Or.inr (Or.inr rfl)
        · exact ih ys

theorem cmpParts_antisymm : ∀ a b : List Int, cmpParts a b = -cmpParts b a := by
  intro a
  induction a with
  | nil =>
    intro b
    cases b with
    | nil => simp [cmpParts, zerosCmp]
    | cons y ys =>
      show zerosCmp (y :: ys) = -cmpWithZeros (y :: ys)
      exact zerosCmp_eq_neg_cmpWithZeros (y :: ys)
  | cons x xs ih =>
    intro b
    cases b with
    | nil =>
      show cmpWithZeros (x :: xs) = -zerosCmp (x :: xs)
      rw [zerosCmp_eq_neg_cmpWithZeros (x :: xs)]
      omega
    | cons y ys =>
      simp only [cmpParts]
      split_ifs <;> first | omega | exact ih ys

/-- Padding both arguments with trailing zeros up to a common length does not
change `cmpParts`. -/
theorem cmpParts_pad : ∀ (n : Nat) (a b : List Int), a.length ≤ n → b.length ≤ n →
    cmpParts (a ++ List.replicate (n - a.length) 0) (b ++ List.replicate (n - b.length) 0) =
      cmpParts a b := by
  intro n
  induction n with
  | zero =>
    intro a b ha hb
    have ha0 : a = [] := List.length_eq_zero.mp (Nat.le_zero.mp ha)
    have hb0 : b = [] := List.length_eq_zero.mp (Nat.le_zero.mp hb)
    subst ha0; subst hb0
    simp
  | succ n ih =>
    intro a b ha hb
    cases a with
    | nil =>
      cases b with
      | nil =>
        simp only [List.nil_append, List.length_nil, Nat.sub_zero, List.replicate_succ]
        have := ih [] [] (by simp) (by simp)
        simp only [List.nil_append, List.length_nil, Nat.sub_zero] at this
        simp only [cmpParts, zerosCmp, lt_irrefl, if_false]
        simpa [cmpParts, zerosCmp] using this
      | cons y ys =>
        have hys : ys.length ≤ n := by simpa using hb
        simp only [List.nil_append, List.length_nil, Nat.sub_zero, List.replicate_succ,
          List.length_cons, List.cons_append]
        have harith : n + 1 - (ys.length + 1) = n - ys.length := by omega
        rw [harith]
        have hrec := ih [] ys (by simp) hys
        simp only [List.nil_append, List.length_nil, Nat.sub_zero] at hrec
        show cmpParts (0 :: List.replicate n 0) (y :: (ys ++ List.replicate (n - ys.length) 0)) =
          zerosCmp (y :: ys)
        simp only [cmpParts, zerosCmp]
        split
        · rfl
        · split
          · rfl
          · exact hrec
    | cons x xs =>
      have hxs : xs.length ≤ n := by simpa using ha
      cases b with
      | nil =>
        simp only [List.nil_append, List.length_nil, Nat.sub_zero, List.replicate_succ,
          List.length_cons, List.cons_append]
        have harith : n + 1 - (xs.length + 1) = n - xs.length := by omega
        rw [harith]
        have hrec := ih xs [] hxs (by simp)
        simp only [List.nil_append, List.length_nil, Nat.sub_zero, cmpParts_nil_right] at hrec
        show cmpParts (x :: (xs ++ List.replicate (n - xs.length) 0)) (0 :: List.replicate n 0) =
          cmpWithZeros (x :: xs)
        simp only [cmpParts, cmpWithZeros]
        split
        · rfl
        · split
          · rfl
          · exact hrec
      | cons y ys =>
        have hys : ys.length ≤ n := by simpa using hb
        simp only [List.length_cons, List.cons_append]
        have h1 : n + 1 - (xs.length + 1) = n - xs.length := by omega
        have h2 : n + 1 - (ys.length + 1) = n - ys.length := by omega
        rw [h1, h2]
        simp only [cmpParts]
        split
        · rfl
        · split
          · rfl
          · exact ih xs ys hxs hys

/-- On equal-length lists, `cmpParts` is transitive at value `1`. -/
theorem cmpParts_trans_eqlen : ∀ (a b c : List Int),
    a.length = b.length → b.length = c.length →
    cmpParts a b = 1 → cmpParts b c = 1 → cmpParts a c = 1 := by
  intro a
  induction a with
  | nil =>
    intro b c hab hbc h1 h2
    have hb : b = [] := List.length_eq_zero.mp hab.symm
    subst hb
    exact h2
  | cons x xs ih =>
    intro b c hab hbc h1 h2
    cases b with
    | nil => simp at hab
    | cons y ys =>
      cases c with
      | nil => simp at hbc
      | cons z zs =>
        have hab' : xs.length = ys.length := by simpa using hab
        have hbc' : ys.length = zs.length := by simpa using hbc
        simp only [cmpParts] at h1 h2 ⊢
        by_cases hxy : x < y
        · rw [if_pos hxy] at h1; omega
        · rw [if_neg hxy] at h1
          by_cases hyx : y < x
          · rw [if_pos hyx] at h1
            by_cases hyz : y < z
            · rw [if_pos hyz] at h2; omega
            · rw [if_neg hyz] at h2
              by_cases hzy : z < y
              · have hxz : z < x := by omega
                rw [if_neg (by omega), if_pos hxz]
              · have hxz : z < x := by omega
                rw [if_neg (by omega), if_pos hxz]
          · rw [if_neg hyx] at h1
            have hxy' : x = y := by omega
            subst hxy'
            by_cases hyz : x < z
            · rw [if_pos hyz] at h2; omega
            · rw [if_neg hyz] at h2
              by_cases hzy : z < x
              · rw [if_pos hzy] at h2
                rw [if_neg hyz, if_pos hzy]
              · rw [if_neg hzy] at h2
                rw [if_neg hyz, if_neg hzy]
                exact ih ys zs hab' hbc' h1 h2

theorem cmpParts_trans : ∀ (a b c : List Int),
    cmpParts a b = 1 → cmpParts b c = 1 → cmpParts a c = 1 := by
  intro a b c h1 h2
  have hna : a.length ≤ max a.length (max b.length c.length) := le_max_left _ _
  have hnb : b.length ≤ max a.length (max b.length c.length) :=
    le_trans (le_max_left _ _) (le_max_right _ _)
  have hnc : c.length ≤ max a.length (max b.length c.length) :=
    le_trans (le_max_right _ _) (le_max_right _ _)
  have e1 := cmpParts_pad (max a.length (max b.length c.length)) a b hna hnb
  have e2 := cmpParts_pad (max a.length (max b.length c.length)) b c hnb hnc
  have e3 := cmpParts_pad (max a.length (max b.length c.length)) a c hna hnc
  have key := cmpParts_trans_eqlen
    (a ++ List.replicate (max a.length (max b.length c.length) - a.length) 0)
    (b ++ List.replicate (max a.length (max b.length c.length) - b.length) 0)
    (c ++ List.replicate (max a.length (max b.length c.length) - c.length) 0)
    (by simp <;> omega) (by simp <;> omega)
    (e1.trans h1) (e2.trans h2)
  exact e3.symm.trans key

/-! ### C1: the version comparator -/

/-- C1: `compareVersions` (the definition above embeds the algorithm of the
claim: strip the hyphen-introduced suffix, split on `.`, parse each component
with `parseInt || 0`, compare component-wise up to the longer length with
missing trailing components read as `0`; being a total Lean function it never
throws).  The three example equations of the spec hold, the result is always
`-1`, `0` or `1`, and the comparison is antisymmetric and transitive. -/
theorem C1_compareVersions_spec :
    compareVersions ("1.2.0") ("1.2") = 0 ∧
    compareVersions ("1.0.0-beta") ("1.0.0") = 0 ∧
    compareVersions ("2.0") ("1.9.9") = 1 ∧
    (∀ x y, compareVersions x y = -1 ∨ compareVersions x y = 0 ∨ compareVersions x y = 1) ∧
    (∀ x y, compareVersions x y = -compareVersions y x) ∧
    (∀ x y z, compareVersions x y = 1 → compareVersions y z = 1 → compareVersions x z = 1) := by
  refine ⟨by decide, by decide, by decide, ?_, ?_, ?_⟩
  · intro x y
    exact cmpParts_range _ _
  · intro x y
    exact cmpParts_antisymm _ _
  · intro x y z h1 h2
    exact cmpParts_trans _ _ _ h1 h2

theorem C1_compareVersions_spec_witness :
    compareVersions ("3.0") ("2.5") = 1 ∧ compareVersions ("2.5") ("1.0") = 1 ∧
    compareVersions ("3.0") ("1.0") = 1 :=
  ⟨by decide, by decide,
    C1_compareVersions_spec.2.2.2.2.2 ("3.0") ("2.5") ("1.0") (by decide) (by decide)⟩

/-! ### Update candidates (interface `PluginUpdateCandidate`, main.ts lines 53-62) -/

/-- The `source` field of `PluginUpdateCandidate`. -/
inductive RepoSource where
  | official
  | tracked
  | detected
  | unknown
deriving DecidableEq

/-- The `versionStatus` field of `PluginUpdateCandidate`. -/
inductive VersionStatus where
  | updateAvailable
  | upToDate
  | localNewer
  | unknown
deriving DecidableEq

/-- The `PluginUpdateCandidate` record of main.ts; optional fields become
`Option`. -/
structure PluginUpdateCandidate where
  pluginId : String
  currentVersion : String
  latestVersion : Option String
  repo : Option String
  source : RepoSource
  versionStatus : VersionStatus
  needsUpdate : Bool
  error : Option String
deriving DecidableEq

/-- Code-point lexicographic three-way comparison of character lists; this is
the model of `String.prototype.localeCompare` used by the candidate sort
(plugin ids are plain ASCII identifiers, for which `localeCompare` agrees
with lexicographic comparison). -/
def lexCmpChars : List Char → List Char → Int
  | [], [] => 0
  | [], _ :: _ => -1
  | _ :: _, [] => 1
  | a :: as, b :: bs =>
    if a.toNat < b.toNat then -1 else if b.toNat < a.toNat then 1 else lexCmpChars as bs

/-- `a.pluginId.localeCompare(b.pluginId)` model. -/
def comparePluginIds (a b : String) : Int :=
  lexCmpChars a.data b.data

/-- The sort comparator of `checkInstalledPluginUpdates` (main.ts lines
565-570): candidates that need an update sort first, then by plugin id. -/
def cmpCandidate (a b : PluginUpdateCandidate) : Int :=
  if a.needsUpdate ≠ b.needsUpdate then (if a.needsUpdate then -1 else 1)
  else comparePluginIds a.pluginId b.pluginId

/-- The non-strict order induced by the comparator (`comparator ≤ 0`), used to
model JavaScript's stable `Array.prototype.sort`. -/
def candLE (a b : PluginUpdateCandidate) : Prop :=
  cmpCandidate a b ≤ 0

instance : DecidableRel candLE :=
  fun a b => inferInstanceAs (Decidable (cmpCandidate a b ≤ 0))

/-- `candidates.sort(cmp)` from `checkInstalledPluginUpdates`, modelled by a
stable sort with respect to `candLE`. -/
def sortCandidates (l : List PluginUpdateCandidate) : List PluginUpdateCandidate :=
  List.insertionSort candLE l

theorem lexCmpChars_range : ∀ a b : List Char,
    lexCmpChars a b = -1 ∨ lexCmpChars a b = 0 ∨ lexCmpChars a b = 1 := by
  intro a
  induction a with
  | nil =>
    intro b
    cases b <;> simp [lexCmpChars]
  | cons x xs ih =>
    intro b
    cases b with
    | nil => simp [lexCmpChars]
    | cons y ys =>
      simp only [lexCmpChars]
      split
      · exact Or.inl rfl
      · split
        · exact Or.inr (Or.inr rfl)
        · exact ih ys

theorem lexCmpChars_antisymm : ∀ a b : List Char, lexCmpChars a b = -lexCmpChars b a := by
  intro a
  induction a with
  | nil =>
    intro b
    cases b <;> simp [lexCmpChars]
  | cons x xs ih =>
    intro b
    cases b with
    | nil => simp [lexCmpChars]
    | cons y ys =>
      simp only [lexCmpChars]
      split_ifs <;> first | omega | exact ih ys

theorem lexCmpChars_le_trans : ∀ a b c : List Char,
    lexCmpChars a b ≤ 0 → lexCmpChars b c ≤ 0 → lexCmpChars a c ≤ 0 := by
  intro a
  induction a with
  | nil =>
    intro b c _ _
    cases c <;> simp [lexCmpChars]
  | cons x xs ih =>
    intro b c h1 h2
    cases b with
    | nil => simp [lexCmpChars] at h1
    | cons y ys =>
      cases c with
      | nil => simp [lexCmpChars] at h2
      | cons z zs =>
        simp only [lexCmpChars] at h1 h2 ⊢
        split_ifs at h1 with hxy hyx
        · split_ifs at h2 with hyz hzy
          · split_ifs with hxz hzx
            · omega
            · omega
            · omega
          · omega
          · split_ifs with hxz hzx
            · omega
            · omega
            · omega
        · omega
        · have hxy' : x.toNat = y.toNat := by omega
          split_ifs at h2 with hyz hzy
          · split_ifs with hxz hzx
            · omega
            · omega
            · omega
          · omega
          · have hyz' : y.toNat = z.toNat := by omega
            split_ifs with hxz hzx
            · omega
            · omega
            · exact ih ys zs h1 h2

theorem comparePluginIds_le_trans (a b c : String) :
    comparePluginIds a b ≤ 0 → comparePluginIds b c ≤ 0 → comparePluginIds a c ≤ 0 :=
  lexCmpChars_le_trans a.data b.data c.data

theorem cmpCandidate_antisymm (a b : PluginUpdateCandidate) :
    cmpCandidate a b = -cmpCandidate b a := by
  unfold cmpCandidate
  cases ha : a.needsUpdate <;> cases hb : b.needsUpdate <;> simp [ha, hb]
  · exact lexCmpChars_antisymm _ _
  · exact lexCmpChars_antisymm _ _

/-- Characterization of the comparator order: update-needed candidates come
first; within equal `needsUpdate`, order is by plugin id. -/
theorem candLE_iff (a b : PluginUpdateCandidate) :
    candLE a b ↔ ((a.needsUpdate = true ∧ b.needsUpdate = false) ∨
      (a.needsUpdate = b.needsUpdate ∧ comparePluginIds a.pluginId b.pluginId ≤ 0)) := by
  unfold candLE cmpCandidate
  cases ha : a.needsUpdate <;> cases hb : b.needsUpdate <;> simp [ha, hb]

instance : IsTotal PluginUpdateCandidate candLE := by
  constructor
  intro a b
  by_cases h : candLE a b
  · exact Or.inl h
  · right
    unfold candLE at h ⊢
    rw [cmpCandidate_antisymm b a]
    omega

instance : IsTrans PluginUpdateCandidate candLE := by
  constructor
  intro a b c hab hbc
  rw [candLE_iff] at hab hbc ⊢
  rcases hab with ⟨ha1, hb1⟩ | ⟨hab, hid1⟩
  · rcases hbc with ⟨hb2, hc2⟩ | ⟨hbc, hid2⟩
    · rw [hb1] at hb2
      exact absurd hb2 (by simp)
    · exact Or.inl ⟨ha1, hbc ▸ hb1⟩
  · rcases hbc with ⟨hb2, hc2⟩ | ⟨hbc, hid2⟩
    · exact Or.inl ⟨hab ▸ hb2, hc2⟩
    · exact Or.inr ⟨hab.trans hbc, comparePluginIds_le_trans _ _ _ hid1 hid2⟩

theorem sortCandidates_sorted (l : List PluginUpdateCandidate) :
    List.Sorted candLE (sortCandidates l) :=
  List.sorted_insertionSort candLE l

theorem sortCandidates_perm (l : List PluginUpdateCandidate) :
    (sortCandidates l).Perm l :=
  List.perm_insertionSort candLE l

/-! ### Repository resolution and the update check
(`checkInstalledPluginUpdates`, main.ts lines 452-571) -/

/-- JavaScript string truthiness applied to an optional string: `undefined`,
`null` and `""` are falsy. -/
def jsOptTruthy : Option String → Option String
  | none => none
  | some s => if s = "" then none else some s

/-- `value || default` for a possibly missing string (used for
`installedManifest?.version || "0.0.0"` and error-message defaults). -/
def jsOrDefault (v : Option String) (d : String) : String :=
  match jsOptTruthy v with
  | none => d
  | some s => s

/-- Lookup in a string-keyed record / `Map` modelled as an association list. -/
def mapGet (m : List (String × String)) (k : String) : Option String :=
  (m.find? (fun p => p.1 == k)).map (fun p => p.2)

/-- `record[k] = v`: overwrite or append. -/
def mapSet (m : List (String × String)) (k v : String) : List (String × String) :=
  if (m.find? (fun p => p.1 == k)).isSome then
    m.map (fun p => if p.1 == k then (k, v) else p)
  else m ++ [(k, v)]

/-- Outcome of the per-plugin repository resolution (main.ts lines 483-503). -/
structure ResolveResult where
  repo : Option String
  source : RepoSource
  unresolvedReason : String
  newTracked : List (String × String)
  mappingChanged : Bool
  detectCalled : Bool
deriving DecidableEq

/-- The default unresolved reason (main.ts line 485). -/
def defaultUnresolvedReason : String :=
  "Could not map plugin to a GitHub repository."

/-- Per-plugin repository resolution, main.ts lines 483-503: first the
official community list (`repoById`), then the persisted
`settings.installedRepoMap`, then on-demand detection
(`findRepoByManifestId`, abstracted as the oracle `detect`, whose `Except`
value carries either the found repo or the failure reason); a successful
detection is written back into the tracked map. -/
def resolvePluginRepo (official tracked : List (String × String))
    (detect : String → Except String String) (pluginId : String) : ResolveResult :=
  match jsOptTruthy (mapGet official pluginId) with
  | some r => ⟨some r, RepoSource.official, defaultUnresolvedReason, tracked, false, false⟩
  | none =>
    match jsOptTruthy (mapGet tracked pluginId) with
    | some r => ⟨some r, RepoSource.tracked, defaultUnresolvedReason, tracked, false, false⟩
    | none =>
      match detect pluginId with
      | Except.ok r =>
        if r = "" then
          ⟨none, RepoSource.unknown, defaultUnresolvedReason, tracked, false, true⟩
        else
          ⟨some r, RepoSource.detected, defaultUnresolvedReason,
            mapSet tracked pluginId r, true, true⟩
      | Except.error reason =>
        ⟨none, RepoSource.unknown, jsOrDefault (some reason) defaultUnresolvedReason,
          tracked, false, true⟩

/-- An installed plugin as seen by the update check: its id and the manifest
version read from disk (or from the in-memory manifest), `none`/`""` when
missing. -/
structure InstalledPlugin where
  pluginId : String
  version : Option String
deriving DecidableEq

/-- Candidate construction for one plugin, main.ts lines 505-558.
`fetchLatest` abstracts `getLatestManifestVersionFromRepo`: an exception
message, or the latest release's manifest version (`none` models `null`,
returned when the release has no `manifest.json`). -/
def buildCandidate (pluginId currentVersion : String) (res : ResolveResult)
    (fetchLatest : String → Except String (Option String)) : PluginUpdateCandidate :=
  match res.repo with
  | none =>
    ⟨pluginId, currentVersion, none, none, RepoSource.unknown, VersionStatus.unknown,
      false, some res.unresolvedReason⟩
  | some repo =>
    match fetchLatest repo with
    | Except.error msg =>
      ⟨pluginId, currentVersion, none, some repo, res.source, VersionStatus.unknown,
        false, some (jsOrDefault (some msg) ("Failed to check latest release."))⟩
    | Except.ok latestOpt =>
      match jsOptTruthy latestOpt with
      | none =>
        ⟨pluginId, currentVersion, none, some repo, res.source, VersionStatus.unknown,
          false, some ("No manifest.json in latest release.")⟩
      | some latestVersion =>
        ⟨pluginId, currentVersion, some latestVersion, some repo, res.source,
          (if compareVersions currentVersion latestVersion < 0 then
            VersionStatus.updateAvailable
          else if compareVersions currentVersion latestVersion = 0 then
            VersionStatus.upToDate
          else VersionStatus.localNewer),
          decide (compareVersions currentVersion latestVersion < 0), none⟩

/-- One iteration of the `for (const pluginId of installedPluginIds)` loop:
resolve the repository (threading the tracked map) and build the candidate. -/
def checkStep (official : List (String × String))
    (detect : String → Except String String)
    (fetchLatest : String → Except String (Option String))
    (acc : List PluginUpdateCandidate × List (String × String)) (p : InstalledPlugin) :
    List PluginUpdateCandidate × List (String × String) :=
  let res := resolvePluginRepo official acc.2 detect p.pluginId
  (acc.1 ++ [buildCandidate p.pluginId (jsOrDefault p.version ("0.0.0")) res fetchLatest],
    res.newTracked)

/-- `checkInstalledPluginUpdates` (main.ts lines 452-571): iterate over the
installed plugins, resolve each repository, build the update candidates, and
return them sorted (update-needed first, then by plugin id) together with the
final tracked-repository map. -/
def checkInstalledPluginUpdates (plugins : List InstalledPlugin)
    (official tracked : List (String × String))
    (detect : String → Except String String)
    (fetchLatest : String → Except String (Option String)) :
    List PluginUpdateCandidate × List (String × String) :=
  let folded := plugins.foldl (checkStep official detect fetchLatest) ([], tracked)
  (sortCandidates folded.1, folded.2)

theorem candLE_partition {x y : PluginUpdateCandidate} (h : candLE x y) :
    (y.needsUpdate = true → x.needsUpdate = true) ∧
    (x.needsUpdate = y.needsUpdate → comparePluginIds x.pluginId y.pluginId ≤ 0) := by
  rw [candLE_iff] at h
  rcases h with ⟨hx, hy⟩ | ⟨hxy, hid⟩
  · constructor
    · intro hy2
      rw [hy] at hy2
      exact absurd hy2 (by simp)
    · intro he
      rw [hx, hy] at he
      exact absurd he (by simp)
  · exact ⟨fun h2 => hxy.trans h2, fun _ => hid⟩

/-- C2: the sequence returned by `checkInstalledPluginUpdates` is ordered so
that every candidate with `needsUpdate = true` precedes every candidate with
`needsUpdate = false`, and within each of the two partitions candidates
appear in lexicographic order of plugin id; on the claim's concrete example
(`A` not needing an update, `B` and `C` needing one, `C` before `B`
alphabetically) sorting `[A, B, C]` yields `[C, B, A]`. -/
theorem C2_update_check_ordering :
    (∀ plugins official tracked detect fetchLatest,
      List.Pairwise
        (fun x y : PluginUpdateCandidate =>
          (y.needsUpdate = true → x.needsUpdate = true) ∧
          (x.needsUpdate = y.needsUpdate → comparePluginIds x.pluginId y.pluginId ≤ 0))
        (checkInstalledPluginUpdates plugins official tracked detect fetchLatest).1) ∧
    sortCandidates
      [⟨("aaa"), ("1.0.0"), some ("1.0.0"), some ("own/a"), RepoSource.official,
        VersionStatus.upToDate, false, none⟩,
       ⟨("beta"), ("1.0.0"), some ("2.0.0"), some ("own/b"), RepoSource.official,
        VersionStatus.updateAvailable, true, none⟩,
       ⟨("alpha"), ("1.0.0"), some ("2.0.0"), some ("own/c"), RepoSource.official,
        VersionStatus.updateAvailable, true, none⟩] =
      [⟨("alpha"), ("1.0.0"), some ("2.0.0"), some ("own/c"), RepoSource.official,
        VersionStatus.updateAvailable, true, none⟩,
       ⟨("beta"), ("1.0.0"), some ("2.0.0"), some ("own/b"), RepoSource.official,
        VersionStatus.updateAvailable, true, none⟩,
       ⟨("aaa"), ("1.0.0"), some ("1.0.0"), some ("own/a"), RepoSource.official,
        VersionStatus.upToDate, false, none⟩] := by
  constructor
  · intro plugins official tracked detect fetchLatest
    have hs := sortCandidates_sorted
      (plugins.foldl (checkStep official detect fetchLatest) ([], tracked)).1
    exact List.Pairwise.imp (fun h => candLE_partition h) hs
  · decide

theorem C2_update_check_ordering_witness :
    List.Pairwise
      (fun x y : PluginUpdateCandidate =>
        (y.needsUpdate = true → x.needsUpdate = true) ∧
        (x.needsUpdate = y.needsUpdate → comparePluginIds x.pluginId y.pluginId ≤ 0))
      (checkInstalledPluginUpdates [⟨("a"), some ("1.0.0")⟩] [] []
        (fun _ => Except.error ("none found")) (fun _ => Except.ok none)).1 :=
  C2_update_check_ordering.1 [⟨("a"), some ("1.0.0")⟩] [] []
    (fun _ => Except.error ("none found")) (fun _ => Except.ok none)

/-- The chained invariant holds for every candidate that `buildCandidate`
produces. -/
theorem buildCandidate_invariant (pluginId currentVersion : String) (res : ResolveResult)
    (fetchLatest : String → Except String (Option String)) :
    ((buildCandidate pluginId currentVersion res fetchLatest).needsUpdate = true →
      (buildCandidate pluginId currentVersion res fetchLatest).versionStatus =
        VersionStatus.updateAvailable) ∧
    ((buildCandidate pluginId currentVersion res fetchLatest).versionStatus =
        VersionStatus.updateAvailable →
      (buildCandidate pluginId currentVersion res fetchLatest).repo.isSome = true) := by
  unfold buildCandidate
  cases hrepo : res.repo with
  | none => simp
  | some repo =>
    cases hf : fetchLatest repo with
    | error msg => simp [hf]
    | ok latestOpt =>
      cases ho : jsOptTruthy latestOpt with
      | none => simp [hf, ho]
      | some latestVersion =>
        by_cases hlt : compareVersions currentVersion latestVersion < 0
        · simp [hf, ho, hlt]
        · simp [hf, ho, hlt]

/-- Every candidate accumulated by the update-check fold satisfies any
property enjoyed by all outputs of `buildCandidate`. -/
theorem checkFold_invariant (P : PluginUpdateCandidate → Prop)
    (hP : ∀ pid cv res fl, P (buildCandidate pid cv res fl))
    (official : List (String × String))
    (detect : String → Except String String)
    (fetchLatest : String → Except String (Option String)) :
    ∀ (plugins : List InstalledPlugin) (acc : List PluginUpdateCandidate × List (String × String)),
      (∀ c ∈ acc.1, P c) →
      ∀ c ∈ (plugins.foldl (checkStep official detect fetchLatest) acc).1, P c := by
  intro plugins
  induction plugins with
  | nil =>
    intro acc hacc c hc
    exact hacc c hc
  | cons p ps ih =>
    intro acc hacc c hc
    refine ih _ ?_ c hc
    intro d hd
    simp only [checkStep, List.mem_append, List.mem_singleton] at hd
    rcases hd with hd | hd
    · exact hacc d hd
    · subst hd
      exact hP _ _ _ _

/-- C5: every `PluginUpdateCandidate` returned by `checkInstalledPluginUpdates`
satisfies the chained invariant: `needsUpdate = true` implies
`versionStatus = update-available`, which in turn implies that the resolved
`repo` field is present. -/
theorem C5_candidate_invariant (plugins : List InstalledPlugin)
    (official tracked : List (String × String))
    (detect : String → Except String String)
    (fetchLatest : String → Except String (Option String)) :
    ∀ c ∈ (checkInstalledPluginUpdates plugins official tracked detect fetchLatest).1,
      (c.needsUpdate = true → c.versionStatus = VersionStatus.updateAvailable) ∧
      (c.versionStatus = VersionStatus.updateAvailable → c.repo.isSome = true) := by
  intro c hc
  have hc2 : c ∈ (plugins.foldl (checkStep official detect fetchLatest) ([], tracked)).1 :=
    (sortCandidates_perm _).mem_iff.mp hc
  exact checkFold_invariant
    (fun c => (c.needsUpdate = true → c.versionStatus = VersionStatus.updateAvailable) ∧
      (c.versionStatus = VersionStatus.updateAvailable → c.repo.isSome = true))
    (fun pid cv res fl => buildCandidate_invariant pid cv res fl)
    official detect fetchLatest plugins ([], tracked) (by intro d hd; exact absurd hd (by simp))
    c hc2

theorem C5_candidate_invariant_witness :
    (⟨("a"), ("1.0.0"), some ("2.0.0"), some ("own/a"), RepoSource.official,
      VersionStatus.updateAvailable, true, none⟩ : PluginUpdateCandidate).versionStatus =
        VersionStatus.updateAvailable ∧
    (⟨("a"), ("1.0.0"), some ("2.0.0"), some ("own/a"), RepoSource.official,
      VersionStatus.updateAvailable, true, none⟩ : PluginUpdateCandidate).repo.isSome = true := by
  have h := C5_candidate_invariant [⟨("a"), some ("1.0.0")⟩] [(("a"), ("own/a"))] []
    (fun _ => Except.error ("none found")) (fun _ => Except.ok (some ("2.0.0")))
    (⟨("a"), ("1.0.0"), some ("2.0.0"), some ("own/a"), RepoSource.official,
      VersionStatus.updateAvailable, true, none⟩) (by decide)
  exact ⟨h.1 rfl, h.2 rfl⟩

theorem mapGet_mapSet_self : ∀ (m : List (String × String)) (k v : String),
    mapGet (mapSet m k v) k = some v := by
  intro m k v
  induction m with
  | nil => simp [mapSet, mapGet]
  | cons p ps ih =>
    by_cases h : (p.1 == k) = true
    · have h1 : (p :: ps).find? (fun q => q.1 == k) = some p :=
        List.find?_cons_of_pos _ h
      have h2 : mapSet (p :: ps) k v =
          (k, v) :: ps.map (fun q => if q.1 == k then (k, v) else q) := by
        unfold mapSet
        rw [h1]
        simp only [Option.isSome_some, if_true, List.map_cons]
        rw [if_pos h]
      rw [h2]
      unfold mapGet
      rw [List.find?_cons_of_pos _ (by simp)]
      rfl
    · have h1 : (p :: ps).find? (fun q => q.1 == k) = ps.find? (fun q => q.1 == k) :=
        List.find?_cons_of_neg _ h
      by_cases hs : (ps.find? (fun q => q.1 == k)).isSome = true
      · have h2 : mapSet (p :: ps) k v =
            p :: ps.map (fun q => if q.1 == k then (k, v) else q) := by
          unfold mapSet
          rw [h1, if_pos hs]
          simp only [List.map_cons]
          rw [if_neg h]
        have h3 : mapSet ps k v = ps.map (fun q => if q.1 == k then (k, v) else q) := by
          unfold mapSet
          rw [if_pos hs]
        rw [h2]
        rw [h3] at ih
        unfold mapGet at ih ⊢
        have hcons : List.find? (fun q : String × String => q.1 == k)
            (p :: ps.map (fun q => if q.1 == k then (k, v) else q)) =
            List.find? (fun q => q.1 == k)
              (ps.map (fun q => if q.1 == k then (k, v) else q)) :=
          List.find?_cons_of_neg _ h
        rw [hcons]
        exact ih
      · have h2 : mapSet (p :: ps) k v = p :: (ps ++ [(k, v)]) := by
          unfold mapSet
          rw [h1, if_neg hs]
          rfl
        have h3 : mapSet ps k v = ps ++ [(k, v)] := by
          unfold mapSet
          rw [if_neg hs]
        rw [h2]
        rw [h3] at ih
        unfold mapGet at ih ⊢
        have hcons : List.find? (fun q : String × String => q.1 == k)
            (p :: (ps ++ [(k, v)])) =
            List.find? (fun q => q.1 == k) (ps ++ [(k, v)]) :=
          List.find?_cons_of_neg _ h
        rw [hcons]
        exact ih

/-- C4: per-package repository resolution tries the official community list
first, then the persistent tracked map, then on-demand detection whose
success is written back; an official entry wins even when a tracked entry
exists and no detection call is made; a tracked entry (official absent) is
used without detection; and once a detection result has been written back,
a subsequent resolution reports it with source `tracked`, not `detected`,
without calling the detector again. -/
theorem C4_resolution_priority (official tracked : List (String × String))
    (detect : String → Except String String) (pluginId : String) :
    (∀ r, jsOptTruthy (mapGet official pluginId) = some r →
      resolvePluginRepo official tracked detect pluginId =
        ⟨some r, RepoSource.official, defaultUnresolvedReason, tracked, false, false⟩) ∧
    (jsOptTruthy (mapGet official pluginId) = none →
      ∀ r, jsOptTruthy (mapGet tracked pluginId) = some r →
      resolvePluginRepo official tracked detect pluginId =
        ⟨some r, RepoSource.tracked, defaultUnresolvedReason, tracked, false, false⟩) ∧
    (jsOptTruthy (mapGet official pluginId) = none →
      jsOptTruthy (mapGet tracked pluginId) = none →
      (resolvePluginRepo official tracked detect pluginId).detectCalled = true ∧
      ∀ r, detect pluginId = Except.ok r → ¬r = "" →
        (resolvePluginRepo official tracked detect pluginId).repo = some r ∧
        (resolvePluginRepo official tracked detect pluginId).source = RepoSource.detected ∧
        (resolvePluginRepo official tracked detect pluginId).newTracked =
          mapSet tracked pluginId r ∧
        (∀ detect2 : String → Except String String,
          resolvePluginRepo official (mapSet tracked pluginId r) detect2 pluginId =
            ⟨some r, RepoSource.tracked, defaultUnresolvedReason,
              mapSet tracked pluginId r, false, false⟩)) := by
  refine ⟨?_, ?_, ?_⟩
  · intro r hr
    unfold resolvePluginRepo
    rw [hr]
  · intro hoff r hr
    unfold resolvePluginRepo
    rw [hoff, hr]
  · intro hoff htr
    constructor
    · unfold resolvePluginRepo
      rw [hoff, htr]
      cases detect pluginId with
      | ok r =>
        by_cases h : r = ""
        · simp [h]
        · simp [h]
      | error reason => simp
    · intro r hr hne
      have hres : resolvePluginRepo official tracked detect pluginId =
          ⟨some r, RepoSource.detected, defaultUnresolvedReason,
            mapSet tracked pluginId r, true, true⟩ := by
        unfold resolvePluginRepo
        rw [hoff, htr, hr]
        simp [hne]
      refine ⟨by rw [hres], by rw [hres], by rw [hres], ?_⟩
      intro detect2
      have hnew : jsOptTruthy (mapGet (mapSet tracked pluginId r) pluginId) = some r := by
        rw [mapGet_mapSet_self]
        simp [jsOptTruthy, hne]
      unfold resolvePluginRepo
      rw [hoff, hnew]

theorem C4_resolution_priority_witness :
    (resolvePluginRepo [] [] (fun _ => Except.ok ("own/r")) ("a")).repo = some ("own/r") ∧
    (resolvePluginRepo [] (mapSet [] ("a") ("own/r"))
      (fun _ => Except.error ("unused")) ("a")).source = RepoSource.tracked := by
  have h := (C4_resolution_priority [] [] (fun _ => Except.ok ("own/r")) ("a")).2.2
    (by decide) (by decide)
  have h2 := h.2 ("own/r") rfl (by decide)
  refine ⟨h2.1, ?_⟩
  rw [h2.2.2.2 (fun _ => Except.error ("unused"))]

/-! ### Repository-name tokens (`normalizeRepoToken`, `compactRepoToken`,
main.ts lines 369-383) and candidate patterns (`findRepoByKnownPatterns`,
main.ts lines 385-410) -/

/-- Is `c` in `[a-z0-9]`? (the character class of the normalization regex). -/
def isAlnumLower (c : Char) : Bool :=
  ('a' ≤ c && c ≤ 'z') || ('0' ≤ c && c ≤ '9')

/-- First half of `replace(/[^a-z0-9]+/g, '-')`: map every character outside
`[a-z0-9]` to `-`. -/
def mapDash (l : List Char) : List Char :=
  l.map (fun c => if isAlnumLower c then c else '-')

/-- Second half of `replace(/[^a-z0-9]+/g, '-')`: collapse every run of `-`
into a single `-` (a run of non-alphanumerics became a run of `-`). -/
def squeezeDash : List Char → List Char
  | [] => []
  | [c] => [c]
  | c :: d :: rest =>
    if c = '-' && d = '-' then squeezeDash (d :: rest) else c :: squeezeDash (d :: rest)

/-- `replace(/^-+|-+$/g, '')`: strip leading and trailing hyphens. -/
def stripDashes (l : List Char) : List Char :=
  (((l.dropWhile (fun c => c = '-')).reverse).dropWhile (fun c => c = '-')).reverse

/-- `replace(/[^a-z0-9]+/g, '-').replace(/^-+|-+$/g, '')`. -/
def collapseStrip (l : List Char) : List Char :=
  stripDashes (squeezeDash (mapDash l))

/-- `normalizeRepoToken` (main.ts lines 369-376):
`input.toLowerCase().trim().replace(/[^a-z0-9]+/g, '-').replace(/^-+|-+$/g, '')`,
with `undefined` propagated. -/
def normalizeRepoToken (input : Option String) : Option String :=
  input.map (fun s => ⟨collapseStrip (jsTrimList (jsToLower s).data)⟩)

/-- `compactRepoToken` (main.ts lines 378-383): the normalized token (falsy
`""` collapses to `undefined`) with every hyphen removed. -/
def compactRepoToken (input : Option String) : Option String :=
  match normalizeRepoToken input with
  | none => none
  | some n => if n = "" then none else some ⟨n.data.filter (fun c => !(c = '-'))⟩

/-- `token ? mk(token) : undefined` (the conditional pattern construction of
`findRepoByKnownPatterns`); the later `.filter(Boolean)` drops the
`undefined` entries. -/
def patternIfTruthy (tok : Option String) (mk : String → String) : Option String :=
  (jsOptTruthy tok).map mk

/-- `[...new Set(candidates)]` keeps the first occurrence of each element,
in order.  `seen` is the set built so far. -/
def dedupFirstGo (seen : List String) : List String → List String
  | [] => []
  | s :: rest =>
    if seen.contains s then dedupFirstGo seen rest
    else s :: dedupFirstGo (s :: seen) rest

/-- `[...new Set(candidates)]`. -/
def dedupFirst (l : List String) : List String :=
  dedupFirstGo [] l

/-- The candidate repository list that `findRepoByKnownPatterns` iterates
over (main.ts lines 389-403): the seven owner/token patterns, with falsy
tokens skipped, deduplicated keeping the first occurrence.  The
per-candidate network verification that follows is not part of this
definition. -/
def findRepoCandidates (owner pluginId : String) (name : Option String) : List String :=
  dedupFirst (List.filterMap id
    [patternIfTruthy (normalizeRepoToken (some pluginId)) (fun t => owner ++ "/obsidian-" ++ t),
     patternIfTruthy (normalizeRepoToken (some pluginId)) (fun t => owner ++ "/" ++ t),
     patternIfTruthy (compactRepoToken (some pluginId)) (fun t => owner ++ "/" ++ t),
     patternIfTruthy (normalizeRepoToken name) (fun t => owner ++ "/obsidian-" ++ t),
     patternIfTruthy (normalizeRepoToken name) (fun t => owner ++ "/" ++ t),
     patternIfTruthy (compactRepoToken name) (fun t => owner ++ "/" ++ t),
     patternIfTruthy (normalizeRepoToken (some pluginId)) (fun t => owner ++ "/obsidian-plugin-" ++ t)])

/-- Normalization exactly as the claim words it: lowercase, replace every
run of non-alphanumerics by a single hyphen, strip leading/trailing hyphens
(no trim step is mentioned in the claim). -/
def specNormalizeToken (s : String) : String :=
  ⟨collapseStrip (jsToLower s).data⟩

/-- The claim's compact variant: the normalized token with all hyphens
removed. -/
def specCompactToken (s : String) : String :=
  ⟨(specNormalizeToken s).data.filter (fun c => !(c = '-'))⟩

/-- The candidate list exactly as the claim words it: all seven patterns in
priority order, duplicates removed keeping the first occurrence — with no
provision for empty tokens. -/
def specRepoCandidates (owner pluginId name : String) : List String :=
  dedupFirst
    [owner ++ "/obsidian-" ++ specNormalizeToken pluginId,
     owner ++ "/" ++ specNormalizeToken pluginId,
     owner ++ "/" ++ specCompactToken pluginId,
     owner ++ "/obsidian-" ++ specNormalizeToken name,
     owner ++ "/" ++ specNormalizeToken name,
     owner ++ "/" ++ specCompactToken name,
     owner ++ "/obsidian-plugin-" ++ specNormalizeToken pluginId]

/-- Pattern construction for the amended claim: a pattern is omitted when
its token is missing or normalizes to the empty string. -/
def specPatternOpt (tok : Option String) (mk : String → String) : Option String :=
  match tok with
  | none => none
  | some t => if t = "" then none else some (mk t)

/-- The amended claim's candidate list: the same seven patterns in the same
priority order, deduplicated keeping the first occurrence, but with every
pattern whose token is missing or empty omitted. -/
def specRepoCandidatesAmended (owner pluginId : String) (name : Option String) : List String :=
  dedupFirst (List.filterMap id
    [specPatternOpt ((some pluginId).map specNormalizeToken) (fun t => owner ++ "/obsidian-" ++ t),
     specPatternOpt ((some pluginId).map specNormalizeToken) (fun t => owner ++ "/" ++ t),
     specPatternOpt ((some pluginId).map specCompactToken) (fun t => owner ++ "/" ++ t),
     specPatternOpt (name.map specNormalizeToken) (fun t => owner ++ "/obsidian-" ++ t),
     specPatternOpt (name.map specNormalizeToken) (fun t => owner ++ "/" ++ t),
     specPatternOpt (name.map specCompactToken) (fun t => owner ++ "/" ++ t),
     specPatternOpt ((some pluginId).map specNormalizeToken) (fun t => owner ++ "/obsidian-plugin-" ++ t)])

theorem ws_not_alnumLower (c : Char) (h : jsIsStrWhitespace c = true) :
    isAlnumLower c = false := by
  simp only [jsIsStrWhitespace, Bool.or_eq_true, decide_eq_true_eq] at h
  rcases h with ((((((h | h) | h) | h) | h) | h) | h) | h <;> subst h <;> decide

theorem stripDashes_dash_cons (x : List Char) : stripDashes ('-' :: x) = stripDashes x := by
  unfold stripDashes
  rw [List.dropWhile_cons_of_pos (by decide)]

theorem stripDashes_squeeze_dash_cons (m : List Char) :
    stripDashes (squeezeDash ('-' :: m)) = stripDashes (squeezeDash m) := by
  cases m with
  | nil => rfl
  | cons d ds =>
    by_cases hd : d = '-'
    · subst hd
      rw [show squeezeDash ('-' :: '-' :: ds) = squeezeDash ('-' :: ds) from by
        simp [squeezeDash]]
    · rw [show squeezeDash ('-' :: d :: ds) = '-' :: squeezeDash (d :: ds) from by
        simp [squeezeDash, hd]]
      exact stripDashes_dash_cons _

/-- Dropping a leading non-alphanumeric character does not change the
collapsed-and-stripped token. -/
theorem collapseStrip_cons_nonalnum (c : Char) (l : List Char) (h : isAlnumLower c = false) :
    collapseStrip (c :: l) = collapseStrip l := by
  unfold collapseStrip
  have hm : mapDash (c :: l) = '-' :: mapDash l := by
    simp [mapDash, h]
  rw [hm]
  exact stripDashes_squeeze_dash_cons _

/-- Whether a list ends in `-`. -/
def endsWithDash : List Char → Bool
  | [] => false
  | [c] => c = '-'
  | _ :: d :: rest => endsWithDash (d :: rest)

theorem squeezeDash_cons_cons_dash (rest : List Char) :
    squeezeDash ('-' :: '-' :: rest) = squeezeDash ('-' :: rest) := by
  simp [squeezeDash]

theorem squeezeDash_cons_cons_of_ne (c d : Char) (rest : List Char)
    (h : ¬(c = '-' ∧ d = '-')) :
    squeezeDash (c :: d :: rest) = c :: squeezeDash (d :: rest) := by
  simp only [squeezeDash]
  rw [if_neg (by simpa using h)]

theorem squeezeDash_append_dash (m : List Char) :
    squeezeDash (m ++ ['-']) =
      (if endsWithDash m then squeezeDash m else squeezeDash m ++ ['-']) := by
  induction m with
  | nil => simp [squeezeDash, endsWithDash]
  | cons c m' ih =>
    cases m' with
    | nil =>
      by_cases hc : c = '-'
      · subst hc
        simp [squeezeDash, endsWithDash]
      · simp [squeezeDash, endsWithDash, hc]
    | cons d rest =>
      have hl : (c :: d :: rest) ++ ['-'] = c :: ((d :: rest) ++ ['-']) := by simp
      rw [hl]
      have hends : endsWithDash (c :: d :: rest) = endsWithDash (d :: rest) := rfl
      by_cases hcd : c = '-' ∧ d = '-'
      · obtain ⟨hc, hd⟩ := hcd
        subst hc; subst hd
        have e1 : squeezeDash ('-' :: (('-' :: rest) ++ ['-'])) =
            squeezeDash (('-' :: rest) ++ ['-']) := by
          rw [show ('-' :: rest) ++ ['-'] = '-' :: (rest ++ ['-']) from by simp]
          exact squeezeDash_cons_cons_dash _
        rw [e1, ih, hends, squeezeDash_cons_cons_dash]
      · have e1 : squeezeDash (c :: ((d :: rest) ++ ['-'])) =
            c :: squeezeDash ((d :: rest) ++ ['-']) := by
          rw [show (d :: rest) ++ ['-'] = d :: (rest ++ ['-']) from by simp]
          exact squeezeDash_cons_cons_of_ne c d _ hcd
        rw [e1, ih, hends, squeezeDash_cons_cons_of_ne c d rest hcd]
        by_cases he : endsWithDash (d :: rest)
        · simp [he]
        · simp [he]

theorem stripDashes_append_dash (x : List Char) :
    stripDashes (x ++ ['-']) = stripDashes x := by
  induction x with
  | nil => rfl
  | cons c cs ih =>
    by_cases hc : c = '-'
    · subst hc
      rw [List.cons_append, stripDashes_dash_cons, ih, stripDashes_dash_cons]
    · unfold stripDashes
      rw [List.cons_append]
      rw [List.dropWhile_cons_of_neg (by simpa using hc)]
      rw [List.dropWhile_cons_of_neg (by simpa using hc)]
      simp only [List.reverse_cons, List.reverse_append, List.reverse_nil, List.nil_append,
        List.singleton_append, List.cons_append]
      rw [List.dropWhile_cons_of_pos (by decide)]

/-- Appending a trailing non-alphanumeric character does not change the
collapsed-and-stripped token. -/
theorem collapseStrip_append_nonalnum (x : List Char) (c : Char) (h : isAlnumLower c = false) :
    collapseStrip (x ++ [c]) = collapseStrip x := by
  unfold collapseStrip
  have hm : mapDash (x ++ [c]) = mapDash x ++ ['-'] := by
    simp [mapDash, h]
  rw [hm, squeezeDash_append_dash]
  by_cases he : endsWithDash (mapDash x)
  · simp [he]
  · simp [he, stripDashes_append_dash]

theorem collapseStrip_dropWhile_ws (l : List Char) :
    collapseStrip (l.dropWhile jsIsStrWhitespace) = collapseStrip l := by
  induction l with
  | nil => rfl
  | cons c cs ih =>
    by_cases hw : jsIsStrWhitespace c = true
    · rw [List.dropWhile_cons_of_pos hw, ih,
        collapseStrip_cons_nonalnum c cs (ws_not_alnumLower c hw)]
    · rw [List.dropWhile_cons_of_neg hw]

theorem collapseStrip_reverse_dropWhile_ws (r : List Char) :
    collapseStrip (r.dropWhile jsIsStrWhitespace).reverse = collapseStrip r.reverse := by
  induction r with
  | nil => rfl
  | cons c cs ih =>
    by_cases hw : jsIsStrWhitespace c = true
    · rw [List.dropWhile_cons_of_pos hw, ih, List.reverse_cons,
        collapseStrip_append_nonalnum _ c (ws_not_alnumLower c hw)]
    · rw [List.dropWhile_cons_of_neg hw]

/-- The `trim()` step of `normalizeRepoToken` is redundant: whitespace is
not alphanumeric, so the collapse-and-strip steps erase it anyway. -/
theorem collapseStrip_trim (l : List Char) :
    collapseStrip (jsTrimList l) = collapseStrip l := by
  unfold jsTrimList
  rw [collapseStrip_reverse_dropWhile_ws, List.reverse_reverse]
  exact collapseStrip_dropWhile_ws l

/-- The code's `normalizeRepoToken` computes exactly the claim's
normalization (which does not mention the redundant `trim`). -/
theorem normalizeRepoToken_eq_spec (s : String) :
    normalizeRepoToken (some s) = some (specNormalizeToken s) := by
  unfold normalizeRepoToken specNormalizeToken
  simp [collapseStrip_trim]

theorem compactRepoToken_eq_spec (s : String) :
    compactRepoToken (some s) =
      (if specNormalizeToken s = "" then none else some (specCompactToken s)) := by
  unfold compactRepoToken
  rw [normalizeRepoToken_eq_spec]
  rfl

theorem dedupFirstGo_not_mem_seen : ∀ (l : List String) (seen : List String) (s : String),
    s ∈ dedupFirstGo seen l → ¬ s ∈ seen := by
  intro l
  induction l with
  | nil =>
    intro seen s hs
    simp [dedupFirstGo] at hs
  | cons t rest ih =>
    intro seen s hs
    unfold dedupFirstGo at hs
    by_cases hc : seen.contains t
    · rw [if_pos hc] at hs
      exact ih seen s hs
    · rw [if_neg hc] at hs
      rcases List.mem_cons.mp hs with h | h
      · subst h
        simpa using hc
      · intro hmem
        exact ih (t :: seen) s h (List.mem_cons_of_mem t hmem)

theorem dedupFirstGo_nodup : ∀ (l : List String) (seen : List String),
    (dedupFirstGo seen l).Nodup := by
  intro l
  induction l with
  | nil =>
    intro seen
    simp [dedupFirstGo]
  | cons t rest ih =>
    intro seen
    unfold dedupFirstGo
    by_cases hc : seen.contains t
    · rw [if_pos hc]
      exact ih seen
    · rw [if_neg hc]
      refine List.nodup_cons.mpr ⟨?_, ih (t :: seen)⟩
      intro hmem
      exact dedupFirstGo_not_mem_seen rest (t :: seen) t hmem (List.mem_cons_self t seen)

/-- The code's candidate list agrees with the amended claim's list for all
inputs. -/
theorem findRepoCandidates_eq_amended (owner pluginId : String) (name : Option String) :
    findRepoCandidates owner pluginId name = specRepoCandidatesAmended owner pluginId name := by
  have hsome : ∀ (t : String) (mk : String → String),
      patternIfTruthy (some t) mk = (if t = "" then none else some (mk t)) := by
    intro t mk
    unfold patternIfTruthy jsOptTruthy
    by_cases h : t = "" <;> simp [h]
  have hpat : ∀ (o : Option String) (mk : String → String),
      patternIfTruthy (normalizeRepoToken o) mk =
        specPatternOpt (o.map specNormalizeToken) mk := by
    intro o mk
    cases o with
    | none => rfl
    | some s =>
      rw [normalizeRepoToken_eq_spec, hsome]
      rfl
  have hcompat : ∀ (o : Option String) (mk : String → String),
      patternIfTruthy (compactRepoToken o) mk =
        specPatternOpt (o.map specCompactToken) mk := by
    intro o mk
    cases o with
    | none => rfl
    | some s =>
      rw [compactRepoToken_eq_spec]
      by_cases h : specNormalizeToken s = ""
      · rw [if_pos h]
        have hc : specCompactToken s = "" := by
          unfold specCompactToken
          rw [h]
          rfl
        simp [specPatternOpt, patternIfTruthy, jsOptTruthy, hc]
      · rw [if_neg h, hsome]
        rfl
  unfold findRepoCandidates specRepoCandidatesAmended
  rw [hpat, hpat, hcompat, hpat, hpat, hcompat, hpat]

/-- C3 counterexample: for owner `acme`, package id `x` and manifest name
`!` (whose token normalizes to the empty string) the code's candidate list
omits the name-derived patterns, while the list claimed — all seven
patterns, deduplicated — would contain `acme/obsidian-` and `acme/`. -/
theorem C3_candidates_counterexample :
    findRepoCandidates ("acme") ("x") (some ("!")) =
      [("acme/obsidian-x"), ("acme/x"), ("acme/obsidian-plugin-x")] ∧
    specRepoCandidates ("acme") ("x") ("!") =
      [("acme/obsidian-x"), ("acme/x"), ("acme/obsidian-"), ("acme/"),
       ("acme/obsidian-plugin-x")] ∧
    ¬ findRepoCandidates ("acme") ("x") (some ("!")) =
        specRepoCandidates ("acme") ("x") ("!") := by
  refine ⟨by decide, by decide, by decide⟩

/-- C3 (amended): the tier-3 candidate list is the claimed seven-pattern
sequence in priority order with normalized tokens and first-occurrence
deduplication, except that patterns whose token is missing or normalizes to
the empty string are omitted; the list never contains duplicates, and for
owner `acme`, id `quick-add` (and a name normalizing identically) it is
exactly `[acme/obsidian-quick-add, acme/quick-add, acme/quickadd,
acme/obsidian-plugin-quick-add]`. -/
theorem C3_candidates_amended :
    (∀ owner pluginId name, findRepoCandidates owner pluginId name =
      specRepoCandidatesAmended owner pluginId name) ∧
    (∀ owner pluginId name, (findRepoCandidates owner pluginId name).Nodup) ∧
    findRepoCandidates ("acme") ("quick-add") (some ("Quick Add")) =
      [("acme/obsidian-quick-add"), ("acme/quick-add"), ("acme/quickadd"),
       ("acme/obsidian-plugin-quick-add")] := by
  refine ⟨findRepoCandidates_eq_amended, ?_, by decide⟩
  intro owner pluginId name
  unfold findRepoCandidates dedupFirst
  exact dedupFirstGo_nodup _ []

theorem C3_candidates_amended_witness :
    findRepoCandidates ("o") ("p") none = specRepoCandidatesAmended ("o") ("p") none :=
  C3_candidates_amended.1 ("o") ("p") none

/-! ### Release assets of `installPluginFromGithub` (main.ts lines 591-601) -/

/-- A release asset, identified by its file name. -/
structure ReleaseAsset where
  name : String
deriving DecidableEq

/-- The required-assets check of `installPluginFromGithub` (main.ts lines
596-601): the thrown error message when the `main.js` bundle or the
`manifest.json` asset is absent from the latest release, `none` when both
are present. -/
def installAssetError (assets : List ReleaseAsset) : Option String :=
  let mainJs := assets.find? (fun a => a.name == "main.js")
  let manifestJson := assets.find? (fun a => a.name == "manifest.json")
  if mainJs.isNone || manifestJson.isNone then
    some ("Plugin does not have required release assets (main.js and manifest.json).")
  else none

/-- C6 counterexample: a release whose only asset is `main.js` carries one of
the two required assets, so by the claim no missing-assets error should be
raised — yet the code raises it (both assets are required). -/
theorem C6_missing_assets_counterexample :
    (installAssetError [⟨("main.js")⟩]).isSome = true ∧
    (∃ a ∈ [(⟨("main.js")⟩ : ReleaseAsset)], a.name = "main.js") ∧
    ¬ ((installAssetError [⟨("main.js")⟩]).isSome = true ↔
      ((¬ ∃ a ∈ [(⟨("main.js")⟩ : ReleaseAsset)], a.name = "main.js") ∧
       (¬ ∃ a ∈ [(⟨("main.js")⟩ : ReleaseAsset)], a.name = "manifest.json"))) := by
  refine ⟨by decide, by decide, by decide⟩

/-- C6 (amended): `installPluginFromGithub` raises the missing-assets error
precisely when the latest release lacks the primary bundle asset `main.js`
or lacks the manifest asset `manifest.json` — both are required. -/
theorem C6_missing_assets_amended (assets : List ReleaseAsset) :
    (installAssetError assets).isSome = true ↔
      ((¬ ∃ a ∈ assets, a.name = "main.js") ∨ (¬ ∃ a ∈ assets, a.name = "manifest.json")) := by
  have key : ∀ (s : String), ((assets.find? (fun a => a.name == s)).isNone = true) ↔
      ¬ ∃ a ∈ assets, a.name = s := by
    intro s
    rw [Option.isNone_iff_eq_none, List.find?_eq_none]
    simp
  have hiff : (installAssetError assets).isSome = true ↔
      ((assets.find? (fun a => a.name == ("main.js"))).isNone = true ∨
       (assets.find? (fun a => a.name == ("manifest.json"))).isNone = true) := by
    unfold installAssetError
    by_cases h1 : (assets.find? (fun a => a.name == ("main.js"))).isNone <;>
      by_cases h2 : (assets.find? (fun a => a.name == ("manifest.json"))).isNone <;>
        simp [h1, h2]
  rw [hiff, key ("main.js"), key ("manifest.json")]

/-! ### Multi-target deployment (`installPluginFromGithub`, main.ts lines 643-685) -/

/-- The `for (const vaultPath of targetVaults)` write loop, which runs inside
the single try/catch of the multi-vault block: each target's write is
attempted in order and the first exception aborts the loop.  Returns the
targets whose write was attempted (in order) and the caught error, if any.
`write` abstracts the per-target `mkdirSync`/`writeFileSync` sequence. -/
def deployLoop (write : String → Except String Unit) : List String → List String × Option String
  | [] => ([], none)
  | v :: rest =>
    match write v with
    | Except.error e => ([v], some e)
    | Except.ok _ =>
      let r := deployLoop write rest
      (v :: r.1, r.2)

/-- The multi-vault deployment block (main.ts lines 643-685): run the write
loop inside one try/catch.  An exception is logged (the middle component),
never rethrown to the caller, and leaves `targetVaultsCount` at `0`; when
every write succeeds the count is the number of targets. -/
def deployToExtraVaults (targets : List String) (write : String → Except String Unit) :
    List String × Option String × Nat :=
  let r := deployLoop write targets
  (r.1, r.2, match r.2 with
    | some _ => 0
    | none => targets.length)

theorem deployLoop_all_ok (write : String → Except String Unit) :
    ∀ targets : List String, (∀ v ∈ targets, write v = Except.ok ()) →
      deployLoop write targets = (targets, none) := by
  intro targets
  induction targets with
  | nil =>
    intro _
    rfl
  | cons v rest ih =>
    intro h
    unfold deployLoop
    rw [h v (List.mem_cons_self v rest)]
    rw [ih (fun u hu => h u (List.mem_cons_of_mem v hu))]

theorem deployLoop_first_error (write : String → Except String Unit) :
    ∀ (pre : List String) (v : String) (post : List String) (e : String),
      (∀ u ∈ pre, write u = Except.ok ()) → write v = Except.error e →
      deployLoop write (pre ++ v :: post) = (pre ++ [v], some e) := by
  intro pre
  induction pre with
  | nil =>
    intro v post e _ hv
    rw [List.nil_append]
    simp only [deployLoop]
    rw [hv]
    simp
  | cons u us ih =>
    intro v post e hpre hv
    have hcons : (u :: us) ++ v :: post = u :: (us ++ v :: post) := by simp
    rw [hcons]
    unfold deployLoop
    rw [hpre u (List.mem_cons_self u us)]
    rw [ih v post e (fun w hw => hpre w (List.mem_cons_of_mem u hw)) hv]
    simp

/-- C7 counterexample: with two extra targets and a write failure on the
first, the second target's write is never attempted, contradicting the
claim that every target's write is attempted regardless of earlier
errors. -/
theorem C7_deploy_counterexample :
    (deployToExtraVaults [("v1"), ("v2")]
        (fun v => if v = "v1" then Except.error ("disk full") else Except.ok ())).1 =
      [("v1")] ∧
    ¬ (deployToExtraVaults [("v1"), ("v2")]
        (fun v => if v = "v1" then Except.error ("disk full") else Except.ok ())).1 =
      [("v1"), ("v2")] := by
  refine ⟨by decide, by decide⟩

/-- C7 (amended): the multi-vault write loop runs inside a single try/catch,
so the first failing target aborts the writes to the remaining targets; the
error is caught and logged rather than raised to the caller (the function
returns normally, with the extra-target count left at 0); when every write
succeeds, every target is written and counted. -/
theorem C7_deploy_amended (write : String → Except String Unit) :
    (∀ targets, (∀ v ∈ targets, write v = Except.ok ()) →
      deployToExtraVaults targets write = (targets, none, targets.length)) ∧
    (∀ pre v post e, (∀ u ∈ pre, write u = Except.ok ()) → write v = Except.error e →
      deployToExtraVaults (pre ++ v :: post) write = (pre ++ [v], some e, 0)) := by
  constructor
  · intro targets h
    unfold deployToExtraVaults
    rw [deployLoop_all_ok write targets h]
  · intro pre v post e hpre hv
    unfold deployToExtraVaults
    rw [deployLoop_first_error write pre v post e hpre hv]

theorem C7_deploy_amended_witness :
    deployToExtraVaults [("v1"), ("v2")]
        (fun v => if v = "v1" then Except.error ("disk full") else Except.ok ()) =
      ([("v1")], some ("disk full"), 0) := by
  have h := (C7_deploy_amended
      (fun v => if v = "v1" then Except.error ("disk full") else Except.ok ())).2
    [] ("v1") [("v2")] ("disk full") (by intro u hu; simp at hu) (by simp)
  simpa using h

/-! ### Full-text-search fallback (`findRepoByManifestId`, main.ts lines 412-450) -/

/-- Decidable equality for `Except`, needed to evaluate concrete search-tier
outcomes. -/
instance {ε α : Type} [DecidableEq ε] [DecidableEq α] : DecidableEq (Except ε α) := fun a b =>
  match a, b with
  | Except.ok x, Except.ok y =>
    if h : x = y then Decidable.isTrue (by rw [h])
    else Decidable.isFalse (by intro hc; cases hc; exact h rfl)
  | Except.error x, Except.error y =>
    if h : x = y then Decidable.isTrue (by rw [h])
    else Decidable.isFalse (by intro hc; cases hc; exact h rfl)
  | Except.ok _, Except.error _ => Decidable.isFalse (by intro hc; cases hc)
  | Except.error _, Except.ok _ => Decidable.isFalse (by intro hc; cases hc)

/-- The failure reason returned when the rate-limit flag ended up set
(main.ts line 446). -/
def rateLimitReason : String :=
  "GitHub API rate limit reached during repository detection."

/-- The failure reason returned otherwise (main.ts line 449). -/
def noMatchReason : String :=
  "No GitHub repository with matching manifest id was found."

/-- The query loop of `findRepoByManifestId` (main.ts lines 425-449) with
the `rateLimited` flag threaded explicitly: a query that throws continues
with the next query (setting the flag when the message contains `403`); a
query that returns repositories has its first twelve results verified in
order and the first verified one is returned; when the queries are
exhausted, the failure reason depends on the flag. -/
def searchTierGo (search : String → Except String (List String)) (verify : String → Bool) :
    List String → Bool → Except String String
  | [], rl => Except.error (if rl then rateLimitReason else noMatchReason)
  | q :: rest, rl =>
    match search q with
    | Except.error e => searchTierGo search verify rest (rl || jsIncludes e ("403"))
    | Except.ok repos =>
      match (repos.take 12).find? verify with
      | some r => Except.ok r
      | none => searchTierGo search verify rest rl

/-- The full-text-search fallback tier of `findRepoByManifestId`: the query
loop starting with `rateLimited = false`.  `search` abstracts
`GithubService.searchPlugins` and `verify` abstracts
`repoMatchesPluginId`. -/
def findRepoBySearchTier (queries : List String)
    (search : String → Except String (List String)) (verify : String → Bool) :
    Except String String :=
  searchTierGo search verify queries false

/-- Did some query in `l` fail with a message containing `403`? -/
def anyRateLimited (search : String → Except String (List String)) (l : List String) : Bool :=
  l.any (fun q =>
    match search q with
    | Except.error e => jsIncludes e ("403")
    | Except.ok _ => false)

theorem searchTierGo_no_match (search : String → Except String (List String))
    (verify : String → Bool) :
    ∀ (l : List String) (b : Bool),
      (∀ q ∈ l, ∀ repos, search q = Except.ok repos → (repos.take 12).find? verify = none) →
      searchTierGo search verify l b =
        Except.error (if b || anyRateLimited search l then rateLimitReason else noMatchReason) := by
  intro l
  induction l with
  | nil =>
    intro b _
    simp [searchTierGo, anyRateLimited]
  | cons q rest ih =>
    intro b h
    cases hs : search q with
    | error e =>
      have ha : anyRateLimited search (q :: rest) =
          (jsIncludes e ("403") || anyRateLimited search rest) := by
        simp [anyRateLimited, hs]
      have hrec := ih (b || jsIncludes e ("403"))
        (fun p hp => h p (List.mem_cons_of_mem q hp))
      simp only [searchTierGo]
      rw [hs, ha, ← Bool.or_assoc]
      exact hrec
    | ok repos =>
      have hfind := h q (List.mem_cons_self q rest) repos hs
      have ha : anyRateLimited search (q :: rest) = anyRateLimited search rest := by
        simp [anyRateLimited, hs]
      have hrec := ih b (fun p hp => h p (List.mem_cons_of_mem q hp))
      simp only [searchTierGo]
      rw [hs]
      change (match (repos.take 12).find? verify with
        | some r => Except.ok r
        | none => searchTierGo search verify rest b) = _
      rw [hfind, ha]
      exact hrec

theorem searchTierGo_skip_errors (search : String → Except String (List String))
    (verify : String → Bool) :
    ∀ (pre : List String) (q : String) (rest : List String) (repos : List String) (r : String)
      (b : Bool),
      (∀ p ∈ pre, ∃ e, search p = Except.error e) →
      search q = Except.ok repos → (repos.take 12).find? verify = some r →
      searchTierGo search verify (pre ++ q :: rest) b = Except.ok r := by
  intro pre
  induction pre with
  | nil =>
    intro q rest repos r b _ hq hr
    rw [List.nil_append]
    simp only [searchTierGo]
    rw [hq]
    change (match (repos.take 12).find? verify with
      | some r => Except.ok r
      | none => searchTierGo search verify rest b) = _
    rw [hr]
  | cons p ps ih =>
    intro q rest repos r b hpre hq hr
    obtain ⟨e, he⟩ := hpre p (List.mem_cons_self p ps)
    have hcons : (p :: ps) ++ q :: rest = p :: (ps ++ q :: rest) := by simp
    rw [hcons]
    simp only [searchTierGo]
    rw [he]
    exact ih q rest repos r _ (fun x hx => hpre x (List.mem_cons_of_mem p hx)) hq hr

/-- C8 counterexample: the first query is rate-limited but the second query
completes without rate-limiting and no candidate verifies.  The claim says
this run reports `no match found`; the code reports the rate-limit
reason, because the flag is set as soon as any single query is
rate-limited. -/
theorem C8_rate_limit_counterexample :
    findRepoBySearchTier [("q1"), ("q2")]
        (fun q => if q = "q1"
          then Except.error ("Request failed, status 403 (Rate Limit Exceeded)")
          else Except.ok [])
        (fun _ => false) = Except.error rateLimitReason ∧
    ¬ rateLimitReason = noMatchReason := by
  refine ⟨by decide, by decide⟩

/-- C8 (amended): an error on one query does not abort the remaining
queries — a later query's verified candidate is still returned; and when no
query yields a verified candidate, the rate-limit reason is reported
precisely when at least one query failed with a message containing `403`
(even if other queries completed without rate-limiting), while `no match
found` is reported precisely when none did. -/
theorem C8_rate_limit_amended (search : String → Except String (List String))
    (verify : String → Bool) :
    (∀ pre q rest repos r, (∀ p ∈ pre, ∃ e, search p = Except.error e) →
      search q = Except.ok repos → (repos.take 12).find? verify = some r →
      findRepoBySearchTier (pre ++ q :: rest) search verify = Except.ok r) ∧
    (∀ queries, (∀ q ∈ queries, ∀ repos, search q = Except.ok repos →
        (repos.take 12).find? verify = none) →
      findRepoBySearchTier queries search verify =
        Except.error
          (if anyRateLimited search queries then rateLimitReason else noMatchReason)) := by
  constructor
  · intro pre q rest repos r hpre hq hr
    exact searchTierGo_skip_errors search verify pre q rest repos r false hpre hq hr
  · intro queries h
    have := searchTierGo_no_match search verify queries false h
    simpa [findRepoBySearchTier] using this

theorem C8_rate_limit_amended_witness :
    findRepoBySearchTier [("qa"), ("qb")]
        (fun q => if q = "qa" then Except.error ("network down") else Except.ok [("own/repo")])
        (fun _ => true) = Except.ok ("own/repo") := by
  have h := (C8_rate_limit_amended
      (fun q => if q = "qa" then Except.error ("network down") else Except.ok [("own/repo")])
      (fun _ => true)).1
    [("qa")] ("qb") [] [("own/repo")] ("own/repo")
    (by
      intro p hp
      simp only [List.mem_singleton] at hp
      subst hp
      exact ⟨("network down"), by simp⟩)
    (by simp) (by decide)
  simpa using h

/-! ### Community archive matcher (`CommunityArchiveService.search`,
main.ts lines 134-176) -/

/-- One entry of the community-plugins manifest, restricted to the four
fields the matcher reads. -/
structure ArchivePlugin where
  name : String
  author : String
  description : String
  id : String
deriving DecidableEq

/-- The naive singular form (main.ts line 145): strip a trailing `s` when
the query is longer than 3 characters. -/
def singularForm (l : List Char) : List Char :=
  if l.length > 3 && (l.getLast? == some 's') then l.dropLast else l

/-- The filter predicate of `CommunityArchiveService.search` (main.ts lines
139-163): the lowercased, trimmed query matches everything when empty or
when it is the wildcard `plugin`/`plugins`; otherwise it is matched as a
substring against the lowercased name (both the original and the singular
form), author (original form only), description (both forms) and id
(original form only). -/
def archiveMatches (query : String) (p : ArchivePlugin) : Bool :=
  let searchLower : List Char := jsTrimList (jsToLower query).data
  if searchLower.isEmpty then true
  else if searchLower = ("plugin").data || searchLower = ("plugins").data then true
  else
    let searchSingular := singularForm searchLower
    let name := (jsToLower p.name).data
    let author := (jsToLower p.author).data
    let description := (jsToLower p.description).data
    let id := (jsToLower p.id).data
    containsList searchLower name || containsList searchSingular name ||
    containsList searchLower author ||
    containsList searchLower description || containsList searchSingular description ||
    containsList searchLower id

/-- The matcher exactly as the claim words it: both query forms matched
against all four fields, OR-combined. -/
def archiveMatchesSpec (query : String) (p : ArchivePlugin) : Bool :=
  let ql := jsTrimList (jsToLower query).data
  if ql.isEmpty || ql = ("plugin").data || ql = ("plugins").data then true
  else
    [ql, singularForm ql].any (fun form =>
      [p.name, p.author, p.description, p.id].any (fun field =>
        containsList form (jsToLower field).data))

/-- The amended claim's matcher: both forms for name and description, the
original form only for author and id. -/
def archiveMatchesSpecAmended (query : String) (p : ArchivePlugin) : Bool :=
  let ql := jsTrimList (jsToLower query).data
  if ql.isEmpty || ql = ("plugin").data || ql = ("plugins").data then true
  else
    ([p.name, p.description].any (fun field =>
      [ql, singularForm ql].any (fun form => containsList form (jsToLower field).data))) ||
    ([p.author, p.id].any (fun field => containsList ql (jsToLower field).data))

/-- C9 counterexample: the query `authors` has singular form `author`.  An
entry whose author field is exactly `author` matches under the claim (the
singular form participates for all four fields) but not under the code,
which matches the author field against the original query form only. -/
theorem C9_matcher_counterexample :
    archiveMatches ("authors") ⟨("x"), ("author"), ("y"), ("z")⟩ = false ∧
    archiveMatchesSpec ("authors") ⟨("x"), ("author"), ("y"), ("z")⟩ = true := by
  refine ⟨by decide, by decide⟩

/-- C9 (amended): the Archive Matcher returns an entry exactly when the
trimmed lowercase query is empty, equals `plugin`/`plugins`, or matches as
a case-insensitive substring — with both the original and singular forms
tried against the name and the description, but only the original form
tried against the author and the id. -/
theorem C9_matcher_amended (query : String) (p : ArchivePlugin) :
    archiveMatches query p = archiveMatchesSpecAmended query p := by
  unfold archiveMatches archiveMatchesSpecAmended
  by_cases h1 : (jsTrimList (jsToLower query).data).isEmpty = true
  · simp [h1]
  · by_cases h2 : jsTrimList (jsToLower query).data = ("plugin").data
    · simp [h1, h2]
    · by_cases h3 : jsTrimList (jsToLower query).data = ("plugins").data
      · simp [h1, h2, h3]
      · simp only [h1, h2, h3, if_false, Bool.or_self, Bool.false_or, Bool.or_false,
          List.any_cons, List.any_nil, decide_False, decide_True, Bool.if_false_left,
          Bool.if_true_left, eq_self_iff_true, if_neg, Bool.false_eq_true]
        generalize containsList (jsTrimList (jsToLower query).data) (jsToLower p.name).data = b1
        generalize containsList (singularForm (jsTrimList (jsToLower query).data))
          (jsToLower p.name).data = b2
        generalize containsList (jsTrimList (jsToLower query).data) (jsToLower p.author).data = b3
        generalize containsList (jsTrimList (jsToLower query).data)
          (jsToLower p.description).data = b4
        generalize containsList (singularForm (jsTrimList (jsToLower query).data))
          (jsToLower p.description).data = b5
        generalize containsList (jsTrimList (jsToLower query).data) (jsToLower p.id).data = b6
        cases b1 <;> cases b2 <;> cases b3 <;> cases b4 <;> cases b5 <;> cases b6 <;> rfl

/-! ### Forum search (`ForumService.search`, main.ts lines 76-132) -/

/-- A raw topic from the forum search response (`data.topics`), and also the
shape of the intermediate items built from posts. -/
structure RawTopic where
  title : String
  slug : String
  id : Nat
  posts_count : Option Int
  like_count : Option Int
  views : Option Int
  tags : Option (List String)
deriving DecidableEq

/-- A raw post from the forum search response (`data.posts`). -/
structure RawPost where
  topic_title : String
  topic_slug : String
  topic_id : Nat
  like_count : Option Int
deriving DecidableEq

/-- A `ForumResult` as returned to the caller. -/
structure ForumResult where
  title : String
  slug : String
  id : Nat
  posts_count : Option Int
  like_count : Option Int
  views : Option Int
  tags : List String
deriving DecidableEq

/-- The `postTopics` mapping (main.ts lines 95-105): a post becomes a
topic-shaped item with zero counts and empty tags. -/
def postToItem (p : RawPost) : RawTopic :=
  ⟨p.topic_title, p.topic_slug, p.topic_id, some 0, p.like_count, some 0, some []⟩

/-- The final projection applied to each unique item (main.ts lines
114-122); `item.tags || []` reads missing tags as `[]`. -/
def itemToResult (t : RawTopic) : ForumResult :=
  ⟨t.title, t.slug, t.id, t.posts_count, t.like_count, t.views, t.tags.getD []⟩

/-- The `seenIds` deduplication loop (main.ts lines 108-124): emit each item
whose topic id has not been seen, in order. -/
def dedupeById (seen : List Nat) : List RawTopic → List ForumResult
  | [] => []
  | t :: rest =>
    if seen.contains t.id then dedupeById seen rest
    else itemToResult t :: dedupeById (t.id :: seen) rest

/-- The id set accumulated by the deduplication loop. -/
def seenAfter (seen : List Nat) : List RawTopic → List Nat
  | [] => seen
  | t :: rest =>
    if seen.contains t.id then seenAfter seen rest
    else seenAfter (t.id :: seen) rest

/-- `ForumService.search` (main.ts lines 76-132), with the HTTP fetch and
JSON handling abstracted as an `Except` argument: an exception yields `[]`
(the catch block); a response yields the topics followed by the
post-derived items, deduplicated by topic id keeping the first
occurrence. -/
def forumSearch (response : Except String (List RawTopic × List RawPost)) : List ForumResult :=
  match response with
  | Except.error _ => []
  | Except.ok tp => dedupeById [] (tp.1 ++ tp.2.map postToItem)

theorem dedupeById_append (l1 : List RawTopic) :
    ∀ (seen : List Nat) (l2 : List RawTopic),
      dedupeById seen (l1 ++ l2) = dedupeById seen l1 ++ dedupeById (seenAfter seen l1) l2 := by
  induction l1 with
  | nil =>
    intro seen l2
    simp [dedupeById, seenAfter]
  | cons t rest ih =>
    intro seen l2
    have ed1 : dedupeById seen ((t :: rest) ++ l2) =
        (if seen.contains t.id then dedupeById seen (rest ++ l2)
         else itemToResult t :: dedupeById (t.id :: seen) (rest ++ l2)) := rfl
    have ed2 : dedupeById seen (t :: rest) =
        (if seen.contains t.id then dedupeById seen rest
         else itemToResult t :: dedupeById (t.id :: seen) rest) := rfl
    have es : seenAfter seen (t :: rest) =
        (if seen.contains t.id then seenAfter seen rest
         else seenAfter (t.id :: seen) rest) := rfl
    rw [ed1, ed2, es]
    by_cases hc : seen.contains t.id
    · rw [if_pos hc, if_pos hc, if_pos hc, ih seen l2]
    · rw [if_neg hc, if_neg hc, if_neg hc, List.cons_append, ih (t.id :: seen) l2]

theorem mem_seenAfter_of_mem (x : Nat) :
    ∀ (l : List RawTopic) (seen : List Nat), x ∈ seen → x ∈ seenAfter seen l := by
  intro l
  induction l with
  | nil =>
    intro seen hx
    simpa [seenAfter] using hx
  | cons t rest ih =>
    intro seen hx
    unfold seenAfter
    by_cases hc : seen.contains t.id
    · rw [if_pos hc]
      exact ih seen hx
    · rw [if_neg hc]
      exact ih (t.id :: seen) (List.mem_cons_of_mem _ hx)

theorem id_mem_seenAfter (t : RawTopic) :
    ∀ (l : List RawTopic) (seen : List Nat), t ∈ l → t.id ∈ seenAfter seen l := by
  intro l
  induction l with
  | nil =>
    intro seen ht
    simp at ht
  | cons u rest ih =>
    intro seen ht
    unfold seenAfter
    rcases List.mem_cons.mp ht with h | h
    · subst h
      by_cases hc : seen.contains t.id
      · rw [if_pos hc]
        exact mem_seenAfter_of_mem t.id rest seen (by simpa using hc)
      · rw [if_neg hc]
        exact mem_seenAfter_of_mem t.id rest (t.id :: seen) (List.mem_cons_self _ _)
    · by_cases hc : seen.contains u.id
      · rw [if_pos hc]
        exact ih seen h
      · rw [if_neg hc]
        exact ih (u.id :: seen) h

theorem mem_dedupeById (r : ForumResult) :
    ∀ (l : List RawTopic) (seen : List Nat), r ∈ dedupeById seen l →
      ¬ r.id ∈ seen ∧ ∃ t ∈ l, r = itemToResult t := by
  intro l
  induction l with
  | nil =>
    intro seen hr
    simp [dedupeById] at hr
  | cons t rest ih =>
    intro seen hr
    unfold dedupeById at hr
    by_cases hc : seen.contains t.id
    · rw [if_pos hc] at hr
      obtain ⟨hid, u, hu, hru⟩ := ih seen hr
      exact ⟨hid, u, List.mem_cons_of_mem t hu, hru⟩
    · rw [if_neg hc] at hr
      rcases List.mem_cons.mp hr with h | h
      · subst h
        refine ⟨by simpa [itemToResult] using hc, t, List.mem_cons_self t rest, rfl⟩
      · obtain ⟨hid, u, hu, hru⟩ := ih (t.id :: seen) h
        exact ⟨fun hmem => hid (List.mem_cons_of_mem _ hmem), u,
          List.mem_cons_of_mem t hu, hru⟩

theorem dedupeById_pairwise_ne (l : List RawTopic) :
    ∀ seen : List Nat, (dedupeById seen l).Pairwise (fun a b => ¬ a.id = b.id) := by
  induction l with
  | nil =>
    intro seen
    simp [dedupeById]
  | cons t rest ih =>
    intro seen
    unfold dedupeById
    by_cases hc : seen.contains t.id
    · rw [if_pos hc]
      exact ih seen
    · rw [if_neg hc]
      refine List.pairwise_cons.mpr ⟨?_, ih (t.id :: seen)⟩
      intro r hr heq
      obtain ⟨hid, _⟩ := mem_dedupeById r rest (t.id :: seen) hr
      apply hid
      rw [← heq]
      simp [itemToResult]

theorem dedupeById_covers (t : RawTopic) :
    ∀ (l : List RawTopic) (seen : List Nat), t ∈ l → ¬ t.id ∈ seen →
      ∃ r ∈ dedupeById seen l, r.id = t.id := by
  intro l
  induction l with
  | nil =>
    intro seen ht _
    simp at ht
  | cons u rest ih =>
    intro seen ht hseen
    unfold dedupeById
    rcases List.mem_cons.mp ht with h | h
    · subst h
      rw [if_neg (by simpa using hseen)]
      exact ⟨itemToResult t, List.mem_cons_self _ _, by simp [itemToResult]⟩
    · by_cases hc : seen.contains u.id
      · rw [if_pos hc]
        exact ih seen h hseen
      · rw [if_neg hc]
        by_cases hid : t.id = u.id
        · exact ⟨itemToResult u, List.mem_cons_self _ _, by simp [itemToResult, hid]⟩
        · obtain ⟨r, hr, hrid⟩ := ih (u.id :: seen) h
            (by
              intro hmem
              rcases List.mem_cons.mp hmem with h2 | h2
              · exact hid h2
              · exact hseen h2)
          exact ⟨r, List.mem_cons_of_mem _ hr, hrid⟩

/-- C10: when the forum fetch or its response handling throws,
`ForumService.search` returns the empty list — indistinguishable from a
successful search with zero results; on success it returns the topic and
post results deduplicated by topic id, with topic entries taking precedence
over post-derived entries (a post-derived entry appears only when no topic
carries its id), and every topic id is represented. -/
theorem C10_forum_search (topics : List RawTopic) (posts : List RawPost) :
    (∀ e, forumSearch (Except.error e) = []) ∧
    forumSearch (Except.ok ([], [])) = [] ∧
    (forumSearch (Except.ok (topics, posts))).Pairwise (fun a b => ¬ a.id = b.id) ∧
    (∀ r ∈ forumSearch (Except.ok (topics, posts)),
      (∃ t ∈ topics, r = itemToResult t) ∨
      ((∀ t ∈ topics, ¬ t.id = r.id) ∧ ∃ p ∈ posts, r = itemToResult (postToItem p))) ∧
    (∀ t ∈ topics, ∃ r ∈ forumSearch (Except.ok (topics, posts)), r.id = t.id) := by
  refine ⟨fun e => rfl, rfl, ?_, ?_, ?_⟩
  · exact dedupeById_pairwise_ne _ []
  · intro r hr
    have hr2 : r ∈ dedupeById [] (topics ++ posts.map postToItem) := hr
    rw [dedupeById_append] at hr2
    rcases List.mem_append.mp hr2 with h | h
    · obtain ⟨_, t, ht, hrt⟩ := mem_dedupeById r topics [] h
      exact Or.inl ⟨t, ht, hrt⟩
    · obtain ⟨hid, u, hu, hru⟩ := mem_dedupeById r (posts.map postToItem) (seenAfter [] topics) h
      obtain ⟨p, hp, hpu⟩ := List.mem_map.mp hu
      refine Or.inr ⟨?_, p, hp, by rw [hru, hpu]⟩
      intro t ht heq
      apply hid
      rw [← heq]
      exact id_mem_seenAfter t topics [] ht
  · intro t ht
    exact dedupeById_covers t (topics ++ posts.map postToItem) []
      (List.mem_append_left _ ht) (by simp)

theorem C10_forum_search_witness :
    forumSearch (Except.error ("forum outage")) = [] :=
  (C10_forum_search [] []).1 ("forum outage")
